import Mathlib

/-!
Verification of the queryapi indexer execution engine against its
specification.  The definitions below shallowly embed the two source
files:

* `indexer-js-queue-handler/handler.js` — the real-time SQS queue
  `consumer` that skips legacy `context.db` functions and invokes
  `indexer.runFunctions` per record inside a try/catch; and
* the Editor component's `executeIndexerFunction` — the debug/replay
  dispatch over the options `"debugList"`, `"specific"` and `"latest"`,
  together with the storage namespace (`schemaName`) normalization rule.

Machine behaviour that lives outside the repository (SQS batch
acknowledgment, the `IndexerRunner`) is modelled from the spec and is
marked as such in the doc comments.
-/

/-! ## JavaScript string primitives used by the source -/

/-- `String.prototype.indexOf` on character lists: the index of the first
occurrence of `needle` in `hay`, or `-1` when absent (and `0` for the
empty needle, matching JS). -/
def jsIndexOf (needle : List Char) : List Char → Int
  | [] => if needle.isPrefixOf ([] : List Char) then 0 else -1
  | c :: t =>
    if needle.isPrefixOf (c :: t) then 0
    else
      let r := jsIndexOf needle t
      if r < 0 then -1 else r + 1

/-- The legacy direct-storage-access test from `handler.js`:
`code.indexOf('context.db') >= 0`. -/
def containsContextDb (code : String) : Bool :=
  jsIndexOf ("context.db".data) code.data ≥ 0

/-- One character of the namespace normalization `replace(/[^a-zA-Z0-9]/g, '_')`:
a non-alphanumeric character becomes `'_'`, others are kept. -/
def normChar (c : Char) : Char := if c.isAlphanum then c else '_'

/-- `s.replace(/[^a-zA-Z0-9]/g, '_')` — every non-alphanumeric character
of `s` is replaced by a single underscore. -/
def jsReplaceNonAlnum (s : String) : String := ⟨s.data.map normChar⟩

/-- The storage-namespace naming rule from `executeIndexerFunction`:
`accountId.concat("_", indexerName).replace(/[^a-zA-Z0-9]/g, '_')`. -/
def schemaName (accountId indexerName : String) : String :=
  jsReplaceNonAlnum (accountId ++ "_" ++ indexerName)

/-! ## The real-time queue consumer (`handler.js`) -/

/-- The `indexer_function` object carried by a queue message. -/
structure FunctionConfig where
  account_id : String
  function_name : String
  code : String
  schema : String
deriving DecidableEq

/-- A parsed queue record body: `{block_height, is_historical, indexer_function}`. -/
structure QueueRecord where
  block_height : Int
  is_historical : Bool
  indexer_function : FunctionConfig
deriving DecidableEq

/-- The mode flags passed to `runFunctions`. -/
structure RunOptions where
  imperative : Bool
  provision : Bool
deriving DecidableEq

/-- Observable events of one consumer run: a `runFunctions` invocation for
the record at a given batch index, an error logged by the catch block, or
the acknowledgment (deletion) of a record's message. -/
inductive ConsumerEvent where
  | invoke (idx : Nat) (height : Int) (key : String) (cfg : FunctionConfig)
      (isHistorical : Bool) (opts : RunOptions)
  | logError (idx : Nat) (msg : String)
  | ack (idx : Nat)
deriving DecidableEq

/-- The batch index an event belongs to. -/
def ConsumerEvent.recordIdx : ConsumerEvent → Nat
  | .invoke i _ _ _ _ _ => i
  | .logError i _ => i
  | .ack i => i

/-- Whether an event is a `runFunctions` invocation for batch index `i`. -/
def isInvokeIdx : ConsumerEvent → Nat → Bool
  | .invoke j _ _ _ _ _, i => j = i
  | _, _ => false

/-- Whether an event is a logged error for batch index `i`. -/
def isLogErrorIdx : ConsumerEvent → Nat → Bool
  | .logError j _, i => j = i
  | _, _ => false

/-- The `runFunctions` invocation the handler makes for the record at batch
index `i`: the functions map holds one entry keyed
`function_config.account_id + '/' + function_config.function_name`, and the
options are the literal `{imperative: true, provision: true}`. -/
def invokeEvent (i : Nat) (r : QueueRecord) : ConsumerEvent :=
  ConsumerEvent.invoke i r.block_height
    (r.indexer_function.account_id ++ "/" ++ r.indexer_function.function_name)
    r.indexer_function r.is_historical ⟨true, true⟩

/-- The body of the `for (const record of event.Records)` loop for one
record: skip (no events) when the code contains `'context.db'`; otherwise
invoke `runFunctions` with `{imperative: true, provision: true}`, and when
the invocation throws, catch and log the error (`console.error`). The
outcome of the `i`-th invocation is supplied by the oracle `run`. -/
def processRecord (run : Nat → Except String Unit) (i : Nat) (r : QueueRecord) :
    List ConsumerEvent :=
  if containsContextDb r.indexer_function.code then []
  else
    match run i with
    | Except.ok _ => [invokeEvent i r]
    | Except.error m => [invokeEvent i r, ConsumerEvent.logError i m]

/-- The consumer's record loop, processing records in order starting at
batch index `k`. -/
def consumerLoop (run : Nat → Except String Unit) : Nat → List QueueRecord →
    List ConsumerEvent
  | _, [] => []
  | k, r :: rs => processRecord run k r ++ consumerLoop run (k + 1) rs

/-- The full `consumer` handler on one event batch. The loop events come
first; then every record of the batch is acknowledged.

Modelled from the spec: the acknowledgment step — "acknowledges/removes the
message only after the Function Runner has returned" — is SQS/Lambda
machinery outside this repository. Because the handler catches every
invocation error and returns normally, the entire batch is
acknowledged when the handler returns, i.e. after the loop has finished. -/
def consumer (run : Nat → Except String Unit) (records : List QueueRecord) :
    List ConsumerEvent :=
  consumerLoop run 0 records ++ (List.range records.length).map ConsumerEvent.ack

/-! ## The debug/replay surface (`executeIndexerFunction`) -/

/-- A call made to the `IndexerRunner` by `executeIndexerFunction`: either
`executeIndexerFunctionOnHeights(heights, ...)` or `start(height, ...)`.
`startJs` carries the raw JS value passed (`none` models `null`). -/
inductive RunnerCall where
  | onHeights (heights : List Int)
  | startJs (height : Option Int)
deriving DecidableEq

/-- JS `Number(x)` on the values `executeIndexerFunction` can hold in
`startingBlockHeight`: `Number(null) = 0`, and a number is itself. -/
def jsNumber : Option Int → Int
  | none => 0
  | some x => x

/-- The dispatch of `executeIndexerFunction(option, startingBlockHeight)`,
returning the list of `IndexerRunner` calls it makes.  `heights` is the
component's debug-height list, `latestHeight` the value produced by
`getLatestBlockHeight()` (`none` models a null/undefined result; the JS
`if (latestHeight)` truthiness test also rejects `0`). -/
def executeIndexerFunction (heights : List Int) (latestHeight : Option Int)
    (option : String) (startingBlockHeight : Option Int) : List RunnerCall :=
  if option = "debugList" then
    [RunnerCall.onHeights heights]
  else if option = "specific" then
    if startingBlockHeight = none ∧ jsNumber startingBlockHeight = 0 then []
    else [RunnerCall.startJs startingBlockHeight]
  else if option = "latest" then
    match latestHeight with
    | none => []
    | some h => if h ≠ 0 then [RunnerCall.startJs (some (h - 10))] else []
  else []

/-- Modelled from the spec: `IndexerRunner.executeIndexerFunctionOnHeights`
(in `utils/indexerRunner`, not part of the sources) replays the indexer
function once per height of the list it receives, in order; the result is
the trace of processed heights. -/
def runOnHeights (heights : List Int) : List Int := heights

/-- Modelled from the spec: the debug-list heights are "currently
deduplicated by caller" before `executeIndexerFunction` receives them. -/
def dedupHeights (heights : List Int) : List Int := heights.dedup

/-- Modelled from the spec: with user code that inserts one row per
processed block, a replay produces one row per processed height. -/
def rowsProduced (processedHeights : List Int) : Nat := processedHeights.length

/-! ## Concrete fixtures used to exercise the theorems -/

/-- An invocation oracle under which every `runFunctions` call succeeds. -/
def runOk : Nat → Except String Unit := fun _ => Except.ok ()

/-- An invocation oracle under which the first `runFunctions` call throws a
provisioning failure and the rest succeed. -/
def runFail0 : Nat → Except String Unit := fun i =>
  if i = 0 then Except.error "ProvisioningFailed" else Except.ok ()

/-- A legacy function whose code touches `context.db` directly. -/
def cfgLegacy : FunctionConfig :=
  ⟨"acct.near", "legacyfn", "await context.db.Posts.insert(obj)", "s"⟩

/-- An ordinary function whose code does not contain the legacy marker. -/
def cfgPlain : FunctionConfig := ⟨"acct.near", "plainfn", "return 1", "s"⟩

/-- A batch whose first record carries the legacy marker. -/
def recsSkip : List QueueRecord := [⟨7, false, cfgLegacy⟩, ⟨8, true, cfgPlain⟩]

/-- A batch of two ordinary records. -/
def recsTwo : List QueueRecord := [⟨5, false, cfgPlain⟩, ⟨6, false, cfgPlain⟩]

/-! ## Helper lemmas about the consumer trace -/

theorem mem_processRecord {run : Nat → Except String Unit} {i : Nat}
    {r : QueueRecord} {e : ConsumerEvent} (h : e ∈ processRecord run i r) :
    containsContextDb r.indexer_function.code = false ∧
      (e = invokeEvent i r ∨
        ∃ m, run i = Except.error m ∧ e = ConsumerEvent.logError i m) := by
  unfold processRecord at h
  split at h
  · simp at h
  · next hc =>
    refine ⟨by simpa using hc, ?_⟩
    split at h
    · next u heq =>
      simp only [List.mem_singleton] at h
      exact Or.inl h
    · next m heq =>
      rcases List.mem_cons.mp h with h1 | h2
      · exact Or.inl h1
      · simp only [List.mem_singleton] at h2
        exact Or.inr ⟨m, heq, h2⟩

theorem processRecord_of_skip {run : Nat → Except String Unit} {i : Nat}
    {r : QueueRecord} (hc : containsContextDb r.indexer_function.code = true) :
    processRecord run i r = [] := by
  simp [processRecord, hc]

theorem processRecord_of_error {run : Nat → Except String Unit} {i : Nat}
    {r : QueueRecord} {m : String}
    (hc : containsContextDb r.indexer_function.code = false)
    (hr : run i = Except.error m) :
    processRecord run i r = [invokeEvent i r, ConsumerEvent.logError i m] := by
  simp [processRecord, hc, hr]

theorem processRecord_of_ok {run : Nat → Except String Unit} {i : Nat}
    {r : QueueRecord} (hc : containsContextDb r.indexer_function.code = false)
    (hr : run i = Except.ok ()) :
    processRecord run i r = [invokeEvent i r] := by
  simp [processRecord, hc, hr]

theorem mem_consumerLoop {run : Nat → Except String Unit} :
    ∀ {rs : List QueueRecord} {k : Nat} {e : ConsumerEvent},
      e ∈ consumerLoop run k rs →
      ∃ j : Nat, ∃ hj : j < rs.length, e ∈ processRecord run (k + j) (rs.get ⟨j, hj⟩)
  | [], k, e, h => by simp [consumerLoop] at h
  | r :: rs, k, e, h => by
    rw [consumerLoop] at h
    rcases List.mem_append.mp h with h1 | h2
    · exact ⟨0, by simp, by simpa using h1⟩
    · rcases mem_consumerLoop h2 with ⟨j, hj, hmem⟩
      refine ⟨j + 1, by simpa using Nat.succ_lt_succ hj, ?_⟩
      have harith : k + (j + 1) = k + 1 + j := by omega
      rw [harith]
      simpa using hmem

theorem processRecord_subset_consumerLoop {run : Nat → Except String Unit} :
    ∀ (rs : List QueueRecord) (k j : Nat) (hj : j < rs.length),
      ∀ e ∈ processRecord run (k + j) (rs.get ⟨j, hj⟩), e ∈ consumerLoop run k rs
  | [], _, j, hj, _, _ => by simp at hj
  | r :: rs, k, 0, hj, e, he => by
    rw [consumerLoop]
    exact List.mem_append_left _ (by simpa using he)
  | r :: rs, k, j + 1, hj, e, he => by
    rw [consumerLoop]
    refine List.mem_append_right _ ?_
    have harith : k + (j + 1) = k + 1 + j := by omega
    rw [harith] at he
    exact processRecord_subset_consumerLoop rs (k + 1) j (by simpa using Nat.lt_of_succ_lt_succ hj) e (by simpa using he)

theorem mem_consumer {run : Nat → Except String Unit}
    {records : List QueueRecord} {e : ConsumerEvent}
    (h : e ∈ consumer run records) :
    (∃ j : Nat, ∃ hj : j < records.length,
        e ∈ processRecord run j (records.get ⟨j, hj⟩)) ∨
      ∃ i : Nat, i < records.length ∧ e = ConsumerEvent.ack i := by
  rcases List.mem_append.mp h with h1 | h2
  · rcases mem_consumerLoop h1 with ⟨j, hj, hmem⟩
    exact Or.inl ⟨j, hj, by simpa using hmem⟩
  · rcases List.mem_map.mp h2 with ⟨i, hi, rfl⟩
    exact Or.inr ⟨i, List.mem_range.mp hi, rfl⟩

theorem ack_mem_consumer {run : Nat → Except String Unit}
    {records : List QueueRecord} {i : Nat} (hi : i < records.length) :
    ConsumerEvent.ack i ∈ consumer run records := by
  refine List.mem_append_right _ ?_
  exact List.mem_map.mpr ⟨i, List.mem_range.mpr hi, rfl⟩

theorem processRecord_mem_consumer {run : Nat → Except String Unit}
    {records : List QueueRecord} {j : Nat} (hj : j < records.length)
    {e : ConsumerEvent} (he : e ∈ processRecord run j (records.get ⟨j, hj⟩)) :
    e ∈ consumer run records := by
  refine List.mem_append_left _ ?_
  have h0 : (0 : Nat) + j = j := by omega
  exact processRecord_subset_consumerLoop records 0 j hj e (by rwa [h0])

theorem no_events_for_skipped {run : Nat → Except String Unit}
    {records : List QueueRecord} {i : Nat} (hi : i < records.length)
    (hc : containsContextDb (records.get ⟨i, hi⟩).indexer_function.code = true)
    {e : ConsumerEvent} (he : e ∈ consumer run records) :
    isInvokeIdx e i = false ∧ isLogErrorIdx e i = false := by
  rcases mem_consumer he with ⟨j, hj, hmem⟩ | ⟨m, hm, rfl⟩
  · rcases mem_processRecord hmem with ⟨hcf, hshape⟩
    by_cases hji : j = i
    · subst hji
      have hc2 : containsContextDb (records.get ⟨j, hj⟩).indexer_function.code = true := hc
      rw [hc2] at hcf
      simp at hcf
    · rcases hshape with rfl | ⟨m, hrm, rfl⟩
      · simp [invokeEvent, isInvokeIdx, isLogErrorIdx, hji]
      · simp [isInvokeIdx, isLogErrorIdx, hji]
  · simp [isInvokeIdx, isLogErrorIdx]

/-- C1: a queue record whose indexer function code contains the legacy
direct-storage-access marker `'context.db'` is consumed (acknowledged) but
never invokes the Function Runner: the consumer trace holds zero
`runFunctions` invocations and zero logged errors for that record, and
every record of the batch is still acknowledged. -/
theorem legacy_marker_record_acked_not_invoked
    (run : Nat → Except String Unit) (records : List QueueRecord) (i : Nat)
    (hi : i < records.length)
    (hc : containsContextDb (records.get ⟨i, hi⟩).indexer_function.code = true) :
    ConsumerEvent.ack i ∈ consumer run records ∧
      (consumer run records).countP (fun e => isInvokeIdx e i) = 0 ∧
      (consumer run records).countP (fun e => isLogErrorIdx e i) = 0 ∧
      ∀ k, k < records.length → ConsumerEvent.ack k ∈ consumer run records := by
  refine ⟨ack_mem_consumer hi, ?_, ?_, fun k hk => ack_mem_consumer hk⟩
  · refine List.countP_eq_zero.mpr fun e he habs => ?_
    rw [(no_events_for_skipped hi hc he).1] at habs
    cases habs
  · refine List.countP_eq_zero.mpr fun e he habs => ?_
    rw [(no_events_for_skipped hi hc he).2] at habs
    cases habs

theorem legacy_marker_record_acked_not_invoked_witness :
    containsContextDb (recsSkip.get ⟨0, by decide⟩).indexer_function.code = true ∧
      (ConsumerEvent.ack 0 ∈ consumer runOk recsSkip ∧
        (consumer runOk recsSkip).countP (fun e => isInvokeIdx e 0) = 0 ∧
        (consumer runOk recsSkip).countP (fun e => isLogErrorIdx e 0) = 0 ∧
        ∀ k, k < recsSkip.length → ConsumerEvent.ack k ∈ consumer runOk recsSkip) :=
  ⟨by decide, legacy_marker_record_acked_not_invoked runOk recsSkip 0 (by decide) (by decide)⟩

theorem invoke_mem_processRecord {run : Nat → Except String Unit} {i : Nat}
    {r : QueueRecord} (hc : containsContextDb r.indexer_function.code = false) :
    invokeEvent i r ∈ processRecord run i r := by
  unfold processRecord
  rw [if_neg (by simp [hc])]
  cases run i <;> simp

/-- C2 counterexample: under an invocation oracle whose first
`runFunctions` call throws `ProvisioningFailed`, the consumer logs the
error, still acknowledges the failed record's message, and moves on to
invoke the next record — the failure is not surfaced to the caller and the
block is treated as processed, contradicting the claim. -/
theorem provisioning_failure_swallowed_cex :
    runFail0 0 = Except.error "ProvisioningFailed" ∧
      ConsumerEvent.logError 0 "ProvisioningFailed" ∈ consumer runFail0 recsTwo ∧
      ConsumerEvent.ack 0 ∈ consumer runFail0 recsTwo ∧
      (consumer runFail0 recsTwo).countP (fun e => isInvokeIdx e 1) = 1 :=
  ⟨rfl, by decide, by decide, by decide⟩

/-- C2 (amended): when a queue-mode invocation with `{provision: true}`
throws (e.g. a provisioning failure), the consumer catches the error and
logs it; the message is nonetheless acknowledged and processing moves on —
the failure is never surfaced to the initiating caller. -/
theorem provisioning_failure_caught_not_surfaced
    (run : Nat → Except String Unit) (records : List QueueRecord) (i : Nat)
    (m : String) (hi : i < records.length)
    (hc : containsContextDb (records.get ⟨i, hi⟩).indexer_function.code = false)
    (hr : run i = Except.error m) :
    ConsumerEvent.logError i m ∈ consumer run records ∧
      ConsumerEvent.ack i ∈ consumer run records := by
  refine ⟨?_, ack_mem_consumer hi⟩
  refine processRecord_mem_consumer hi ?_
  rw [processRecord_of_error hc hr]
  simp

theorem provisioning_failure_caught_not_surfaced_witness :
    runFail0 0 = Except.error "ProvisioningFailed" ∧
      (ConsumerEvent.logError 0 "ProvisioningFailed" ∈ consumer runFail0 recsTwo ∧
        ConsumerEvent.ack 0 ∈ consumer runFail0 recsTwo) :=
  ⟨rfl, provisioning_failure_caught_not_surfaced runFail0 recsTwo 0
    "ProvisioningFailed" (by decide) (by decide) rfl⟩

/-- C4: a thrown error from the `runFunctions` invocation of one record is
caught and logged and never escapes the loop: every other (non-skipped)
record in the same event batch is still invoked, and every record is still
acknowledged. -/
theorem invocation_error_never_propagates
    (run : Nat → Except String Unit) (records : List QueueRecord) (j : Nat)
    (m : String) (hj : j < records.length)
    (hcj : containsContextDb (records.get ⟨j, hj⟩).indexer_function.code = false)
    (hr : run j = Except.error m) :
    ConsumerEvent.logError j m ∈ consumer run records ∧
      (∀ k, (hk : k < records.length) →
        containsContextDb (records.get ⟨k, hk⟩).indexer_function.code = false →
        invokeEvent k (records.get ⟨k, hk⟩) ∈ consumer run records) ∧
      ∀ k, k < records.length → ConsumerEvent.ack k ∈ consumer run records := by
  refine ⟨?_, ?_, fun k hk => ack_mem_consumer hk⟩
  · refine processRecord_mem_consumer hj ?_
    rw [processRecord_of_error hcj hr]
    simp
  · intro k hk hck
    exact processRecord_mem_consumer hk (invoke_mem_processRecord hck)

theorem invocation_error_never_propagates_witness :
    runFail0 0 = Except.error "ProvisioningFailed" ∧
      (ConsumerEvent.logError 0 "ProvisioningFailed" ∈ consumer runFail0 recsTwo ∧
        (∀ k, (hk : k < recsTwo.length) →
          containsContextDb (recsTwo.get ⟨k, hk⟩).indexer_function.code = false →
          invokeEvent k (recsTwo.get ⟨k, hk⟩) ∈ consumer runFail0 recsTwo) ∧
        ∀ k, k < recsTwo.length → ConsumerEvent.ack k ∈ consumer runFail0 recsTwo) :=
  ⟨rfl, invocation_error_never_propagates runFail0 recsTwo 0
    "ProvisioningFailed" (by decide) (by decide) rfl⟩

/-- C5: in the consumer trace, acknowledgment of a message never precedes
a `runFunctions` invocation for it: no invocation for batch index `i`
occurs after the event `ack i`, and every record of the batch does get
acknowledged. -/
theorem ack_never_precedes_invocation
    (run : Nat → Except String Unit) (records : List QueueRecord) (i : Nat) :
    (∀ k, k < records.length → ConsumerEvent.ack k ∈ consumer run records) ∧
      (consumer run records).Pairwise
        (fun e1 e2 => ¬(e1 = ConsumerEvent.ack i ∧ isInvokeIdx e2 i = true)) := by
  refine ⟨fun k hk => ack_mem_consumer hk, ?_⟩
  unfold consumer
  refine List.pairwise_append.mpr ⟨?_, ?_, ?_⟩
  · refine List.pairwise_of_forall_mem_list fun a hma b hmb => ?_
    rintro ⟨rfl, _⟩
    rcases mem_consumerLoop hma with ⟨l, hl, hmem⟩
    rcases (mem_processRecord hmem).2 with heq | ⟨m, _, heq⟩ <;>
      simp [invokeEvent] at heq
  · refine List.pairwise_of_forall_mem_list fun a hma b hmb => ?_
    rintro ⟨_, habs⟩
    rcases List.mem_map.mp hmb with ⟨x, _, rfl⟩
    simp [isInvokeIdx] at habs
  · intro a hma b hmb
    rintro ⟨rfl, _⟩
    rcases mem_consumerLoop hma with ⟨l, hl, hmem⟩
    rcases (mem_processRecord hmem).2 with heq | ⟨m, _, heq⟩ <;>
      simp [invokeEvent] at heq

theorem ack_never_precedes_invocation_witness :
    (0 < recsTwo.length) ∧
      ((∀ k, k < recsTwo.length → ConsumerEvent.ack k ∈ consumer runOk recsTwo) ∧
        (consumer runOk recsTwo).Pairwise
          (fun e1 e2 => ¬(e1 = ConsumerEvent.ack 0 ∧ isInvokeIdx e2 0 = true))) :=
  ⟨by decide, ack_never_precedes_invocation runOk recsTwo 0⟩

/-- C9: every `runFunctions` invocation the queue consumer makes carries
the mode flags `{imperative: true, provision: true}`. -/
theorem queue_invocations_imperative_provisioning
    (run : Nat → Except String Unit) (records : List QueueRecord)
    (i : Nat) (h : Int) (key : String) (cfg : FunctionConfig) (hist : Bool)
    (opts : RunOptions)
    (hmem : ConsumerEvent.invoke i h key cfg hist opts ∈ consumer run records) :
    opts = ⟨true, true⟩ := by
  rcases mem_consumer hmem with ⟨j, hj, hpr⟩ | ⟨m, _, habs⟩
  · rcases (mem_processRecord hpr).2 with heq | ⟨m, _, heq⟩
    · unfold invokeEvent at heq
      injection heq
    · simp at heq
  · simp at habs

theorem queue_invocations_imperative_provisioning_witness :
    (ConsumerEvent.invoke 0 5 "acct.near/plainfn" cfgPlain false ⟨true, true⟩
        ∈ consumer runOk recsTwo) ∧
      (⟨true, true⟩ : RunOptions) = ⟨true, true⟩ :=
  ⟨by decide, queue_invocations_imperative_provisioning runOk recsTwo 0 5
    "acct.near/plainfn" cfgPlain false ⟨true, true⟩ (by decide)⟩

/-! ## Helper lemmas about the namespace normalization -/

theorem string_eq_of_data {x y : String} (h : x.data = y.data) : x = y := by
  cases x
  cases y
  exact congrArg String.mk h

theorem schemaName_data (a n : String) :
    (schemaName a n).data = (a.data ++ '_' :: n.data).map normChar := by
  have h1 : (a ++ "_" ++ n).data = a.data ++ '_' :: n.data := by
    rw [String.data_append, String.data_append]
    have h2 : ("_" : String).data = ['_'] := rfl
    rw [h2, List.append_assoc]
    rfl
  simp [schemaName, jsReplaceNonAlnum, h1]

theorem map_normChar_of_alnum {l : List Char} (h : ∀ c ∈ l, c.isAlphanum = true) :
    l.map normChar = l := by
  induction l with
  | nil => rfl
  | cons c t ih =>
    simp only [List.map_cons]
    rw [ih fun x hx => h x (List.mem_cons_of_mem _ hx)]
    have hc := h c (List.mem_cons_self _ _)
    simp [normChar, hc]

theorem underscore_not_mem_of_alnum {l : List Char}
    (h : ∀ c ∈ l, c.isAlphanum = true) : ('_' : Char) ∉ l :=
  fun hm => absurd (h _ hm) (by decide)

theorem append_cons_underscore_inj :
    ∀ (xs : List Char) {xs' ys ys' : List Char},
      ('_' : Char) ∉ xs → ('_' : Char) ∉ xs' →
      xs ++ '_' :: ys = xs' ++ '_' :: ys' → xs = xs' ∧ ys = ys' := by
  intro xs
  induction xs with
  | nil =>
    intro xs' ys ys' _ hx' h
    cases xs' with
    | nil => simpa using h
    | cons c' t' =>
      simp only [List.nil_append, List.cons_append, List.cons.injEq] at h
      exact absurd (by rw [h.1]; exact List.mem_cons_self _ _) hx'
  | cons c t ih =>
    intro xs' ys ys' hx hx' h
    cases xs' with
    | nil =>
      simp only [List.cons_append, List.nil_append, List.cons.injEq] at h
      exact absurd (by rw [← h.1]; exact List.mem_cons_self _ _) hx
    | cons c' t' =>
      simp only [List.cons_append, List.cons.injEq] at h
      obtain ⟨hc, ht⟩ := h
      have hx1 : ('_' : Char) ∉ t := fun hm => hx (List.mem_cons_of_mem _ hm)
      have hx1' : ('_' : Char) ∉ t' := fun hm => hx' (List.mem_cons_of_mem _ hm)
      obtain ⟨h1, h2⟩ := ih hx1 hx1' ht
      exact ⟨by rw [hc, h1], h2⟩

/-- C3 counterexample: the raw identities ("a.b", "x") and ("a_b", "x")
are distinct, yet the normalization maps them to the same storage
namespace name, and no conflict detection exists anywhere in the code. -/
theorem namespace_collision_cex :
    ("a.b" : String) ≠ "a_b" ∧ schemaName "a.b" "x" = schemaName "a_b" "x" :=
  ⟨by decide, rfl⟩

/-- C3 (amended): distinct raw identities that differ only in
non-alphanumeric characters can collide (e.g. "a.b" and "a_b" both yield
"a_b_x"), with no conflict detection; restricted to identities made of
purely alphanumeric characters, the derived namespace names are injective
in the (accountId, indexerName) pair. -/
theorem schemaName_alnum_inj (a n a' n' : String)
    (ha : ∀ c ∈ a.data, c.isAlphanum = true)
    (hn : ∀ c ∈ n.data, c.isAlphanum = true)
    (ha' : ∀ c ∈ a'.data, c.isAlphanum = true)
    (hn' : ∀ c ∈ n'.data, c.isAlphanum = true)
    (heq : schemaName a n = schemaName a' n') : a = a' ∧ n = n' := by
  have hd := congrArg String.data heq
  rw [schemaName_data, schemaName_data, List.map_append, List.map_append,
    List.map_cons, List.map_cons, map_normChar_of_alnum ha,
    map_normChar_of_alnum hn, map_normChar_of_alnum ha',
    map_normChar_of_alnum hn'] at hd
  have hnu : normChar '_' = '_' := by decide
  rw [hnu] at hd
  obtain ⟨h1, h2⟩ := append_cons_underscore_inj a.data
    (underscore_not_mem_of_alnum ha) (underscore_not_mem_of_alnum ha') hd
  exact ⟨string_eq_of_data h1, string_eq_of_data h2⟩

theorem schemaName_alnum_inj_witness :
    (∀ c ∈ ("ab" : String).data, c.isAlphanum = true) ∧
      (("ab" : String) = "ab" ∧ ("c" : String) = "c") :=
  ⟨by decide, schemaName_alnum_inj "ab" "c" "ab" "c" (by decide) (by decide)
    (by decide) (by decide) rfl⟩

/-- C6: the storage namespace is a deterministic pure function of the two
identity strings — the characters of `accountId ++ "_" ++ functionName`
mapped through the normalization sending each non-alphanumeric character
to the single separator '_' — and the result is a valid identifier: every
character of it is alphanumeric or '_'. -/
theorem schemaName_deterministic_valid (a n : String) :
    (schemaName a n).data = (a.data ++ '_' :: n.data).map normChar ∧
      ∀ c ∈ (schemaName a n).data, c.isAlphanum = true ∨ c = '_' := by
  refine ⟨schemaName_data a n, ?_⟩
  intro c hc
  rw [schemaName_data] at hc
  rcases List.mem_map.mp hc with ⟨x, _, rfl⟩
  by_cases hx : x.isAlphanum = true
  · exact Or.inl (by simp [normChar, hx])
  · exact Or.inr (by simp [normChar, hx])

theorem schemaName_deterministic_valid_witness :
    schemaName "a.b" "f" = "a_b_f" ∧
      ((schemaName "a.b" "f").data
          = (("a.b" : String).data ++ '_' :: ("f" : String).data).map normChar ∧
        ∀ c ∈ (schemaName "a.b" "f").data, c.isAlphanum = true ∨ c = '_') :=
  ⟨rfl, schemaName_deterministic_valid "a.b" "f"⟩

/-- C7: a debug-list replay over [100, 100, 101] — the heights list being
deduplicated by the caller, as the spec records — processes height 100
once despite the duplicate and height 101 once, producing exactly two
rows; the "debugList" branch hands the (deduplicated) list to the runner
unchanged. -/
theorem debug_list_duplicate_height_processed_once :
    runOnHeights (dedupHeights [100, 100, 101]) = [100, 101] ∧
      (runOnHeights (dedupHeights [100, 100, 101])).count 100 = 1 ∧
      (runOnHeights (dedupHeights [100, 100, 101])).count 101 = 1 ∧
      rowsProduced (runOnHeights (dedupHeights [100, 100, 101])) = 2 ∧
      executeIndexerFunction (dedupHeights [100, 100, 101]) none "debugList" none
        = [RunnerCall.onHeights [100, 101]] := by
  refine ⟨?_, ?_, ?_, ?_, ?_⟩ <;> decide

/-- C8 counterexample: with option "latest", a latest height of 0 counts
as obtained, yet 0 is JS-falsy, so the runner is not started at
0 - 10 — refuting "whenever a latest height is obtained the runner starts
at latest minus the offset". -/
theorem latest_zero_obtained_not_started_cex :
    (some (0 : Int)).isSome = true ∧
      executeIndexerFunction [] (some 0) "latest" none = [] ∧
      executeIndexerFunction [] (some 0) "latest" none ≠
        [RunnerCall.startJs (some (0 - 10))] := by
  refine ⟨rfl, ?_, ?_⟩ <;> decide

/-- C8 (amended): with option "latest", if a nonzero latest height h is
obtained, the runner is started at exactly h - 10 (fixed offset N = 10);
if no latest height is obtained — or the obtained value is 0, which is
JS-falsy — the runner is not started. -/
theorem latest_starts_at_latest_minus_ten
    (heights : List Int) (sbh : Option Int) (h : Int) (hz : h ≠ 0) :
    executeIndexerFunction heights (some h) "latest" sbh =
        [RunnerCall.startJs (some (h - 10))] ∧
      executeIndexerFunction heights none "latest" sbh = [] := by
  constructor
  · simp [executeIndexerFunction, hz]
  · simp [executeIndexerFunction]

theorem latest_starts_at_latest_minus_ten_witness :
    (100 : Int) ≠ 0 ∧
      (executeIndexerFunction [] (some 100) "latest" none =
          [RunnerCall.startJs (some (100 - 10))] ∧
        executeIndexerFunction [] none "latest" none = []) :=
  ⟨by decide, latest_starts_at_latest_minus_ten [] none 100 (by decide)⟩

/-- C10: with option "specific", the runner is invoked iff
startingBlockHeight is not null, and every non-null value — including 0 —
is passed through to the runner, because the guard fires only when the
value is null and its Number coercion is 0 simultaneously. -/
theorem specific_invoked_iff_not_null
    (heights : List Int) (latestHeight : Option Int) (sbh : Option Int) :
    (executeIndexerFunction heights latestHeight "specific" sbh ≠ [] ↔
        sbh ≠ none) ∧
      ∀ x : Int, sbh = some x →
        executeIndexerFunction heights latestHeight "specific" sbh =
          [RunnerCall.startJs (some x)] := by
  cases sbh with
  | none =>
    constructor
    · simp [executeIndexerFunction, jsNumber]
    · intro x hx
      cases hx
  | some y =>
    constructor
    · simp [executeIndexerFunction, jsNumber]
    · intro x hx
      injection hx with hxy
      rw [← hxy]
      simp [executeIndexerFunction, jsNumber]

theorem specific_invoked_iff_not_null_witness :
    (some (0 : Int) = some 0) ∧
      executeIndexerFunction [] none "specific" (some 0) =
        [RunnerCall.startJs (some 0)] :=
  ⟨rfl, (specific_invoked_iff_not_null [] none (some 0)).2 0 rfl⟩
